import Mathlib

/-!
Verification of the indicator / signal-decision core of `bot.py`.

The pandas data frame is embedded as a `List Candle`; each derived column of
`compute_indicators` becomes a function `List Candle → List ℚ` (for columns the
source always fills) or `List Candle → List (Option ℚ)` (for columns where a
float NaN can survive to the output, `none` playing the role of NaN).
Floating-point arithmetic is modelled by exact rational arithmetic; the one
irrational operation, the square root inside the Bollinger standard deviation,
is modelled with `Rat.sqrt`, which agrees with the real square root on perfect
squares — in particular on the degenerate variance-0 windows the claims
exercise — and no claim below depends on its value elsewhere.
-/

namespace ScalpBot

/- Batteries seals the rational-number field operations; reopening them lets
`decide` evaluate the embedded program on concrete candle frames. -/
attribute [local semireducible] Rat.add Rat.sub Rat.mul Rat.inv Rat.ofScientific

/-! ### Configuration constants (the CONFIG section of the source) -/

def TIMEFRAMES : List String := ["1m", "5m", "15m", "30m", "1h"]

def EMA_FAST : Nat := 7
def EMA_SLOW : Nat := 25
def RSI_WINDOW : Nat := 7
def ADX_WINDOW : Nat := 14
def BB_WINDOW : Nat := 20
def VOL_WINDOW : Nat := 20
def MACD_FAST : Nat := 12
def MACD_SLOW : Nat := 26
def MACD_SIGNAL : Nat := 9
def ADX_THRESHOLD : ℚ := 25
def RSI_BUY_MIN : ℚ := 50
def RSI_BUY_MAX : ℚ := 65
def RSI_SELL_MIN : ℚ := 35
def RSI_SELL_MAX : ℚ := 50

/-! ### Data model -/

/-- One OHLCV candle (the fields of the frame that `compute_indicators` and
`evaluate_conditions` read; `open`/`open_time` are never consumed). -/
structure Candle where
  high : ℚ
  low : ℚ
  close : ℚ
  volume : ℚ
deriving Repr, DecidableEq

/-- The classification returned by `evaluate_conditions` / `analyze_symbol`. -/
inductive Signal where
  | BUY
  | SELL
  | NEUTRAL
deriving Repr, DecidableEq, Fintype

/-! ### Series combinators (the pandas operations the source uses) -/

/-- Tail of pandas `ewm(..., adjust=False).mean()` on a gap-free series:
given the running mean `m`, emit `a*x + (1-a)*m` at each step. -/
def ewmGo (a : ℚ) (m : ℚ) : List ℚ → List ℚ
  | [] => []
  | x :: rest => (a * x + (1 - a) * m) :: ewmGo a (a * x + (1 - a) * m) rest

/-- pandas `Series.ewm(alpha=a, adjust=False).mean()` on a series with no
missing values: `y[0] = x[0]`, `y[t] = a*x[t] + (1-a)*y[t-1]`. -/
def ewm (a : ℚ) : List ℚ → List ℚ
  | [] => []
  | x :: rest => x :: ewmGo a x rest

/-- Smoothing factor of `ewm(span=s)`. -/
def alphaSpan (s : Nat) : ℚ := 2 / (s + 1)

/-- Smoothing factor of `ewm(com=c)`. -/
def alphaCom (c : ℚ) : ℚ := 1 / (c + 1)

/-- Tail of `ewm(..., adjust=False).mean()` after the first present value; in
this program a missing value only ever occurs at the head of an `ewm` input
(it comes from `diff()`), so the carrying case is never exercised. -/
def ewmGoO (a : ℚ) (m : ℚ) : List (Option ℚ) → List ℚ
  | [] => []
  | none :: rest => m :: ewmGoO a m rest
  | some x :: rest => (a * x + (1 - a) * m) :: ewmGoO a (a * x + (1 - a) * m) rest

/-- `ewm(..., adjust=False).mean()` on a series whose missing values (if any)
are at the head: output is missing until the first present value, which seeds
the recurrence. -/
def ewmO (a : ℚ) : List (Option ℚ) → List (Option ℚ)
  | [] => []
  | none :: rest => none :: ewmO a rest
  | some x :: rest => some x :: (ewmGoO a x rest).map some

/-- pandas `Series.shift()` of any column, done once on whole candles:
`shift[t] = x[t-1]`, the first entry missing. -/
def prevO {α : Type} (xs : List α) : List (Option α) :=
  (List.range xs.length).map (fun t =>
    match t with
    | 0 => none
    | s + 1 => xs.get? s)

/-- pandas `Series.diff()`, i.e. `s - s.shift()`: first entry missing, then
pairwise differences. -/
def diffQ (xs : List ℚ) : List (Option ℚ) :=
  List.zipWith (fun b a => a.map (fun v => b - v)) xs (prevO xs)

/-- pandas `.clip(lower=0)` on one entry. -/
def clipLower0 (x : Option ℚ) : Option ℚ := x.map (fun v => max v 0)

/-- pandas `-1 * s.clip(upper=0)` on one entry. -/
def negClipUpper0 (x : Option ℚ) : Option ℚ := x.map (fun v => -1 * min v 0)

/-- pandas `.replace(0, np.nan)` on one entry. -/
def replace0 (x : Option ℚ) : Option ℚ :=
  match x with
  | some v => if v = 0 then none else some v
  | none => none

/-- NaN-propagating division of two entries. -/
def divO (x y : Option ℚ) : Option ℚ :=
  match x, y with
  | some a, some b => some (a / b)
  | _, _ => none

/-- NaN-propagating subtraction of two entries. -/
def subO (x y : Option ℚ) : Option ℚ :=
  match x, y with
  | some a, some b => some (a - b)
  | _, _ => none

/-- NaN-propagating addition of two entries. -/
def addO (x y : Option ℚ) : Option ℚ :=
  match x, y with
  | some a, some b => some (a + b)
  | _, _ => none

/-- The values `xs[t+1-w .. t]` seen by a rolling window of width `w` at `t`. -/
def windowAt {α : Type} (w : Nat) (xs : List α) (t : Nat) : List α :=
  (xs.take (t + 1)).drop (t + 1 - w)

/-- pandas `Series.rolling(window=w).sum()` on a gap-free series:
missing until the window is full. -/
def rollingSum (w : Nat) (xs : List ℚ) : List (Option ℚ) :=
  (List.range xs.length).map (fun t =>
    if w ≤ t + 1 then some (windowAt w xs t).sum else none)

/-- pandas `Series.rolling(window=w).mean()` on a gap-free series. -/
def rollingMean (w : Nat) (xs : List ℚ) : List (Option ℚ) :=
  (List.range xs.length).map (fun t =>
    if w ≤ t + 1 then some ((windowAt w xs t).sum / w) else none)

/-- Sum of a window of entries; missing as soon as one entry is missing. -/
def sumO (l : List (Option ℚ)) : Option ℚ :=
  l.foldr (fun x acc =>
    match x, acc with
    | some v, some s => some (v + s)
    | _, _ => none) (some 0)

/-- pandas `Series.rolling(window=w).mean()` on a series that may contain
missing values: missing while the window is not full and whenever any entry
of the window is missing. -/
def rollingMeanO (w : Nat) (xs : List (Option ℚ)) : List (Option ℚ) :=
  (List.range xs.length).map (fun t =>
    if w ≤ t + 1 then (sumO (windowAt w xs t)).map (· / (w : ℚ)) else none)

/-- Sample variance (ddof = 1, the pandas `rolling(...).std()` default):
mean of the window, then sum of squared deviations over `length - 1`. -/
def sampleVar (l : List ℚ) : ℚ :=
  (l.map (fun x => (x - l.sum / l.length) ^ 2)).sum / ((l.length : ℚ) - 1)

/-- pandas `Series.rolling(window=w).std()` (ddof = 1), square root taken
with `Rat.sqrt` (see the file comment). -/
def rollingStd (w : Nat) (xs : List ℚ) : List (Option ℚ) :=
  (List.range xs.length).map (fun t =>
    if w ≤ t + 1 then some (Rat.sqrt (sampleVar (windowAt w xs t))) else none)

/-- pandas `fillna(method="bfill")`: each missing entry takes the next present
value below it; trailing missing entries stay missing. -/
def bfill : List (Option ℚ) → List (Option ℚ)
  | [] => []
  | some v :: rest => some v :: bfill rest
  | none :: rest => rest.findSome? id :: bfill rest

/-- pandas `fillna(d)` on a whole column. -/
def fillna (d : ℚ) (xs : List (Option ℚ)) : List ℚ :=
  xs.map (fun x => x.getD d)

/-! ### The derived columns of `compute_indicators` -/

def closes (df : List Candle) : List ℚ := df.map Candle.close

def volumes (df : List Candle) : List ℚ := df.map Candle.volume

def EMA_fast_col (df : List Candle) : List ℚ := ewm (alphaSpan EMA_FAST) (closes df)

def EMA_slow_col (df : List Candle) : List ℚ := ewm (alphaSpan EMA_SLOW) (closes df)

def MACD_col (df : List Candle) : List ℚ :=
  List.zipWith (fun a b => a - b)
    (ewm (alphaSpan MACD_FAST) (closes df)) (ewm (alphaSpan MACD_SLOW) (closes df))

def MACD_signal_col (df : List Candle) : List ℚ :=
  ewm (alphaSpan MACD_SIGNAL) (MACD_col df)

def delta_col (df : List Candle) : List (Option ℚ) := diffQ (closes df)

def up_col (df : List Candle) : List (Option ℚ) := (delta_col df).map clipLower0

def down_col (df : List Candle) : List (Option ℚ) := (delta_col df).map negClipUpper0

def ma_up_col (df : List Candle) : List (Option ℚ) :=
  ewmO (alphaCom ((RSI_WINDOW : ℚ) - 1)) (up_col df)

def ma_down_col (df : List Candle) : List (Option ℚ) :=
  ewmO (alphaCom ((RSI_WINDOW : ℚ) - 1)) (down_col df)

def rs_col (df : List Candle) : List (Option ℚ) :=
  List.zipWith (fun u d => divO u (replace0 d)) (ma_up_col df) (ma_down_col df)

/-- `100 - 100/(1+rs)`, then `fillna(50)`. -/
def RSI_col (df : List Candle) : List ℚ :=
  (rs_col df).map (fun r =>
    match r with
    | some rs => 100 - 100 / (1 + rs)
    | none => 50)

/-- `TR = max(tr0, tr1, tr2)` row-wise (pandas `max(axis=1)` skips missing
entries, and `tr0 = high - low` is always present). -/
def TR_row (c : Candle) (prev : Option Candle) : ℚ :=
  match prev with
  | none => c.high - c.low
  | some p => max (c.high - c.low) (max |c.high - p.close| |c.low - p.close|)

def TR_col (df : List Candle) : List ℚ := List.zipWith TR_row df (prevO df)

/-- `np.where((high - high.shift()) > (low.shift() - low), max(high - high.shift(), 0), 0)`;
at row 0 the comparison involves NaN and is false, so the entry is 0. -/
def dm_plus_row (c : Candle) (prev : Option Candle) : ℚ :=
  match prev with
  | none => 0
  | some p => if c.high - p.high > p.low - c.low then max (c.high - p.high) 0 else 0

/-- `np.where((low.shift() - low) > (high - high.shift()), max(low.shift() - low, 0), 0)`. -/
def dm_minus_row (c : Candle) (prev : Option Candle) : ℚ :=
  match prev with
  | none => 0
  | some p => if p.low - c.low > c.high - p.high then max (p.low - c.low) 0 else 0

def dm_plus_col (df : List Candle) : List ℚ := List.zipWith dm_plus_row df (prevO df)

def dm_minus_col (df : List Candle) : List ℚ := List.zipWith dm_minus_row df (prevO df)

def TR_s_col (df : List Candle) : List (Option ℚ) := rollingSum ADX_WINDOW (TR_col df)

def dm_plus_s_col (df : List Candle) : List (Option ℚ) :=
  rollingSum ADX_WINDOW (dm_plus_col df)

def dm_minus_s_col (df : List Candle) : List (Option ℚ) :=
  rollingSum ADX_WINDOW (dm_minus_col df)

/-- `+di = 100 * (+dm_s / TR_s.replace(0, nan))`. -/
def di_plus_col (df : List Candle) : List (Option ℚ) :=
  List.zipWith (fun dms trs => (divO dms (replace0 trs)).map (fun q => 100 * q))
    (dm_plus_s_col df) (TR_s_col df)

/-- `-di = 100 * (-dm_s / TR_s.replace(0, nan))`. -/
def di_minus_col (df : List Candle) : List (Option ℚ) :=
  List.zipWith (fun dms trs => (divO dms (replace0 trs)).map (fun q => 100 * q))
    (dm_minus_s_col df) (TR_s_col df)

/-- `DX = 100 * |+di - -di| / (+di + -di).replace(0, nan)`. -/
def DX_col (df : List Candle) : List (Option ℚ) :=
  List.zipWith (fun dp dm =>
      (divO ((subO dp dm).map (fun q => |q|)) (replace0 (addO dp dm))).map (fun q => 100 * q))
    (di_plus_col df) (di_minus_col df)

/-- `ADX = DX.rolling(window=ADX_WINDOW).mean().fillna(0)`. -/
def ADX_col (df : List Candle) : List ℚ :=
  fillna 0 (rollingMeanO ADX_WINDOW (DX_col df))

/-- `bb_upper = sma + 2*std`. -/
def bb_upper_col (df : List Candle) : List (Option ℚ) :=
  List.zipWith (fun m s => addO m (s.map (fun q => 2 * q)))
    (rollingMean BB_WINDOW (closes df)) (rollingStd BB_WINDOW (closes df))

/-- `bb_lower = sma - 2*std`. -/
def bb_lower_col (df : List Candle) : List (Option ℚ) :=
  List.zipWith (fun m s => subO m (s.map (fun q => 2 * q)))
    (rollingMean BB_WINDOW (closes df)) (rollingStd BB_WINDOW (closes df))

/-- `vol_ma = volume.rolling(window=VOL_WINDOW).mean().fillna(method="bfill")`. -/
def vol_ma_col (df : List Candle) : List (Option ℚ) :=
  bfill (rollingMean VOL_WINDOW (volumes df))

/-! ### The latest snapshot and the signal evaluator -/

/-- One derived row as consumed by `evaluate_conditions`.  Columns that the
source always fills (`fillna`) are plain rationals; columns where a NaN can
survive to the consumed row stay optional, and a comparison against a missing
value is false, exactly as float NaN comparisons are. -/
structure Snapshot where
  EMA_fast : ℚ
  EMA_slow : ℚ
  MACD : ℚ
  MACD_sig : ℚ
  RSI : ℚ
  ADX : ℚ
  close : ℚ
  volume : ℚ
  vol_ma : Option ℚ
  bb_upper : Option ℚ
  bb_lower : Option ℚ
deriving Repr, DecidableEq

/-- `compute_indicators` followed by `df.iloc[-1]`: the last derived row.
`none` for an empty frame, where `iloc[-1]` would fail. -/
def latestRow (df : List Candle) : Option Snapshot :=
  match df.getLast? with
  | none => none
  | some c => some
      { EMA_fast := (EMA_fast_col df).getLastD 0
        EMA_slow := (EMA_slow_col df).getLastD 0
        MACD := (MACD_col df).getLastD 0
        MACD_sig := (MACD_signal_col df).getLastD 0
        RSI := (RSI_col df).getLastD 0
        ADX := (ADX_col df).getLastD 0
        close := c.close
        volume := c.volume
        vol_ma := (vol_ma_col df).getLastD none
        bb_upper := (bb_upper_col df).getLastD none
        bb_lower := (bb_lower_col df).getLastD none }

/-- `x >= y` against a possibly-missing `y` (false on NaN, as for floats). -/
def geO (x : ℚ) (y : Option ℚ) : Prop :=
  match y with
  | some v => x ≥ v
  | none => False

/-- `x > y` against a possibly-missing `y` (false on NaN). -/
def gtO (x : ℚ) (y : Option ℚ) : Prop :=
  match y with
  | some v => x > v
  | none => False

/-- `x < y` against a possibly-missing `y` (false on NaN). -/
def ltO (x : ℚ) (y : Option ℚ) : Prop :=
  match y with
  | some v => x < v
  | none => False

instance (x : ℚ) : (y : Option ℚ) → Decidable (geO x y)
  | some v => inferInstanceAs (Decidable (x ≥ v))
  | none => Decidable.isFalse id

instance (x : ℚ) : (y : Option ℚ) → Decidable (gtO x y)
  | some v => inferInstanceAs (Decidable (x > v))
  | none => Decidable.isFalse id

instance (x : ℚ) : (y : Option ℚ) → Decidable (ltO x y)
  | some v => inferInstanceAs (Decidable (x < v))
  | none => Decidable.isFalse id

abbrev ema_buy (l : Snapshot) : Prop := l.EMA_fast > l.EMA_slow
abbrev ema_sell (l : Snapshot) : Prop := l.EMA_fast < l.EMA_slow
abbrev macd_buy (l : Snapshot) : Prop := l.MACD > l.MACD_sig
abbrev macd_sell (l : Snapshot) : Prop := l.MACD < l.MACD_sig
abbrev rsi_buy (l : Snapshot) : Prop := RSI_BUY_MIN ≤ l.RSI ∧ l.RSI ≤ RSI_BUY_MAX
abbrev rsi_sell (l : Snapshot) : Prop := RSI_SELL_MIN ≤ l.RSI ∧ l.RSI ≤ RSI_SELL_MAX
abbrev adx_ok (l : Snapshot) : Prop := l.ADX ≥ ADX_THRESHOLD
abbrev vol_ok (l : Snapshot) : Prop := geO l.volume l.vol_ma
abbrev bb_buy (l : Snapshot) : Prop := gtO l.close l.bb_upper
abbrev bb_sell (l : Snapshot) : Prop := ltO l.close l.bb_lower

/-- The six-way BUY conjunction of `evaluate_conditions`. -/
abbrev buyAll (l : Snapshot) : Prop :=
  ema_buy l ∧ macd_buy l ∧ rsi_buy l ∧ adx_ok l ∧ vol_ok l ∧ bb_buy l

/-- The six-way SELL conjunction of `evaluate_conditions`. -/
abbrev sellAll (l : Snapshot) : Prop :=
  ema_sell l ∧ macd_sell l ∧ rsi_sell l ∧ adx_ok l ∧ vol_ok l ∧ bb_sell l

/-- `evaluate_conditions` (lines 96-116 of the source). -/
def evaluate_conditions (latest : Snapshot) : Signal :=
  if buyAll latest then .BUY
  else if sellAll latest then .SELL
  else .NEUTRAL

/-! ### The consensus aggregator -/

/-- The reduction at the end of `analyze_symbol` (lines 129-134):
unanimous BUY, else unanimous SELL, else NEUTRAL. -/
def consensus (signals : List Signal) : Signal :=
  if signals.all (· == .BUY) then .BUY
  else if signals.all (· == .SELL) then .SELL
  else .NEUTRAL

/-- `analyze_symbol`, with the exchange fetch abstracted into a function from
timeframe label to candle frame.  The per-timeframe dict is built in loop
order, i.e. in `TIMEFRAMES` order; `none` when some frame is empty (where
`iloc[-1]` would raise). -/
def analyze_symbol (fetch : String → List Candle) :
    Option (Signal × List (String × Signal)) :=
  (TIMEFRAMES.mapM (fun tf => (latestRow (fetch tf)).map evaluate_conditions)).map
    (fun signals => (consensus signals, TIMEFRAMES.zip signals))

/-! ### Definitions used only to state or instantiate the theorems -/

/-- The numbered BUY conditions, for the single-condition-veto statement. -/
def buyCondN (i : Fin 6) : Snapshot → Prop :=
  match i with
  | 0 => ema_buy
  | 1 => macd_buy
  | 2 => rsi_buy
  | 3 => adx_ok
  | 4 => vol_ok
  | 5 => bb_buy

instance (i : Fin 6) (l : Snapshot) : Decidable (buyCondN i l) :=
  match i with
  | 0 => inferInstanceAs (Decidable (ema_buy l))
  | 1 => inferInstanceAs (Decidable (macd_buy l))
  | 2 => inferInstanceAs (Decidable (rsi_buy l))
  | 3 => inferInstanceAs (Decidable (adx_ok l))
  | 4 => inferInstanceAs (Decidable (vol_ok l))
  | 5 => inferInstanceAs (Decidable (bb_buy l))

/-- `evaluate_conditions` with the two branches checked in the opposite
order, used to state that the branch order is immaterial. -/
def evaluate_conditions_sellFirst (l : Snapshot) : Signal :=
  if sellAll l then .SELL
  else if buyAll l then .BUY
  else .NEUTRAL

/-- A snapshot meeting five of the six BUY conditions (all but the Bollinger
breakout), used to instantiate the veto statement. -/
def vetoSnap : Snapshot :=
  { EMA_fast := 2, EMA_slow := 1, MACD := 1, MACD_sig := 0, RSI := 55, ADX := 30,
    close := 1, volume := 5, vol_ma := some 1, bb_upper := some 2, bb_lower := some 0 }

/-- A one-row frame, used to instantiate the aggregator theorem. -/
def oneCandle : Candle := { high := 1, low := 1, close := 1, volume := 1 }

/-- A two-row frame with one rising close, used to instantiate the RSI
theorems (its down-average at row 1 is 0). -/
def rsiPair : List Candle :=
  [{ high := 1, low := 1, close := 1, volume := 1 },
   { high := 2, low := 2, close := 2, volume := 1 }]

/-- Row `t` of the ADX test frame: 15 flat candles, then rising candles. -/
def adxRow (t : Nat) : Candle :=
  if t ≤ 14 then { high := 2, low := 1, close := 1, volume := 1 }
  else { high := 2 + ((t : ℚ) - 14), low := 1 + ((t : ℚ) - 14),
         close := 1 + ((t : ℚ) - 14), volume := 1 }

/-- A 28-row frame whose row 14 has a zero DI denominator (flat highs/lows
over the whole trailing window) while rows 15-27 have DX = 100. -/
def adxDF : List Candle := (List.range 28).map adxRow

/-- A candle with volume 1 and a candle with volume 2, used to exhibit the
backward-fill lookahead in `vol_ma`. -/
def volA : Candle := { high := 1, low := 1, close := 1, volume := 1 }

/-- See `volA`. -/
def volB : Candle := { high := 1, low := 1, close := 1, volume := 2 }

/-- The spec's concrete flat candle (close 100, high 101, low 99, volume 10). -/
def flatCandle : Candle := { high := 101, low := 99, close := 100, volume := 10 }

/-- 21 flat candles: the minimum length `max window + 1`. -/
def flat21 : List Candle := List.replicate 21 flatCandle

/-! ### The signal evaluator -/

theorem buyAll_iff (l : Snapshot) : buyAll l ↔ ∀ i : Fin 6, buyCondN i l := by
  constructor
  · rintro ⟨h0, h1, h2, h3, h4, h5⟩ i
    fin_cases i <;> assumption
  · intro h
    exact ⟨h 0, h 1, h 2, h 3, h 4, h 5⟩

theorem not_buyAll_and_sellAll (l : Snapshot) : ¬(buyAll l ∧ sellAll l) := by
  rintro ⟨⟨hb, -, -, -, -, -⟩, ⟨hs, -, -, -, -, -⟩⟩
  exact lt_asymm hb hs

/-- **C1**: `evaluate_conditions` returns BUY iff all six BUY conditions hold,
SELL iff all six mirrored SELL conditions hold, NEUTRAL otherwise; and a
snapshot meeting every BUY condition except one — whichever of the six it
is — is classified NEUTRAL. -/
theorem evaluate_conditions_spec (l : Snapshot) :
    (evaluate_conditions l = .BUY ↔ buyAll l) ∧
    (evaluate_conditions l = .SELL ↔ sellAll l) ∧
    (evaluate_conditions l = .NEUTRAL ↔ ¬buyAll l ∧ ¬sellAll l) ∧
    (∀ i : Fin 6, (∀ j : Fin 6, j ≠ i → buyCondN j l) → ¬buyCondN i l →
      evaluate_conditions l = .NEUTRAL) := by
  by_cases hb : buyAll l <;> by_cases hs : sellAll l
  · exact absurd ⟨hb, hs⟩ (not_buyAll_and_sellAll l)
  · have hev : evaluate_conditions l = .BUY := by simp [evaluate_conditions, hb]
    refine ⟨?_, ?_, ?_, ?_⟩
    · rw [hev]; exact iff_of_true rfl hb
    · rw [hev]; exact iff_of_false (fun hx => Signal.noConfusion hx) hs
    · rw [hev]
      exact iff_of_false (fun hx => Signal.noConfusion hx) (fun hx => hx.1 hb)
    · intro i _ hi
      exact absurd ((buyAll_iff l).mp hb i) hi
  · have hev : evaluate_conditions l = .SELL := by simp [evaluate_conditions, hb, hs]
    refine ⟨?_, ?_, ?_, ?_⟩
    · rw [hev]; exact iff_of_false (fun hx => Signal.noConfusion hx) hb
    · rw [hev]; exact iff_of_true rfl hs
    · rw [hev]
      exact iff_of_false (fun hx => Signal.noConfusion hx) (fun hx => hx.2 hs)
    · intro i hmost _
      by_cases h0 : i = 0
      · have hmacd : macd_buy l := hmost 1 (by simp [h0])
        exact absurd hs (by rintro ⟨-, hs2, -, -, -, -⟩; exact lt_asymm hmacd hs2)
      · have hema : ema_buy l := hmost 0 (by simpa using fun h => h0 h.symm)
        exact absurd hs (by rintro ⟨hs1, -, -, -, -, -⟩; exact lt_asymm hema hs1)
  · have hev : evaluate_conditions l = .NEUTRAL := by simp [evaluate_conditions, hb, hs]
    refine ⟨?_, ?_, ?_, ?_⟩
    · rw [hev]; exact iff_of_false (fun hx => Signal.noConfusion hx) hb
    · rw [hev]; exact iff_of_false (fun hx => Signal.noConfusion hx) hs
    · rw [hev]; exact iff_of_true rfl ⟨hb, hs⟩
    · intro _ _ _
      exact hev

/-- Witness for C1: `vetoSnap` meets the five BUY conditions other than the
Bollinger breakout and fails that one, and is classified NEUTRAL. -/
theorem evaluate_conditions_spec_witness : evaluate_conditions vetoSnap = .NEUTRAL :=
  (evaluate_conditions_spec vetoSnap).2.2.2 5 (by decide) (by decide)

/-- **C10**: the six-way BUY conjunction and the six-way SELL conjunction can
never hold together (the EMA comparisons are strict and opposite), so checking
the SELL branch first gives the same classification. -/
theorem buy_sell_exclusive_spec (l : Snapshot) :
    ¬(buyAll l ∧ sellAll l) ∧
    evaluate_conditions l = evaluate_conditions_sellFirst l := by
  refine ⟨not_buyAll_and_sellAll l, ?_⟩
  unfold evaluate_conditions evaluate_conditions_sellFirst
  by_cases hb : buyAll l <;> by_cases hs : sellAll l
  · exact absurd ⟨hb, hs⟩ (not_buyAll_and_sellAll l)
  · rw [if_pos hb, if_neg hs, if_pos hb]
  · rw [if_neg hb, if_pos hs, if_pos hs]
  · rw [if_neg hb, if_neg hs, if_neg hs, if_neg hb]

/-! ### The consensus aggregator -/

/-- **C2**: whenever `analyze_symbol` succeeds, its overall signal is BUY iff
every timeframe's signal is BUY, SELL iff every timeframe's signal is SELL,
NEUTRAL otherwise; the per-timeframe mapping lists the configured timeframes
in order; and on the spec's concrete signal lists the reduction returns
NEUTRAL for [BUY, BUY, BUY, SELL, BUY], BUY for five BUYs, NEUTRAL for five
NEUTRALs. -/
theorem analyze_symbol_spec :
    (∀ (fetch : String → List Candle) (overall : Signal) (per : List (String × Signal)),
        analyze_symbol fetch = some (overall, per) →
        (overall = .BUY ↔ ∀ p ∈ per, p.2 = .BUY) ∧
        (overall = .SELL ↔ ∀ p ∈ per, p.2 = .SELL) ∧
        (overall = .NEUTRAL ↔ ¬(∀ p ∈ per, p.2 = .BUY) ∧ ¬(∀ p ∈ per, p.2 = .SELL)) ∧
        per.map Prod.fst = TIMEFRAMES) ∧
    consensus [.BUY, .BUY, .BUY, .SELL, .BUY] = .NEUTRAL ∧
    consensus (List.replicate 5 .BUY) = .BUY ∧
    consensus (List.replicate 5 .NEUTRAL) = .NEUTRAL := by
  refine ⟨?_, by decide, by decide, by decide⟩
  intro fetch overall per h
  unfold analyze_symbol TIMEFRAMES at h
  simp only [List.mapM_cons, List.mapM_nil] at h
  cases h1 : (latestRow (fetch "1m")).map evaluate_conditions with
  | none => rw [h1] at h; simp at h
  | some s1 =>
  cases h2 : (latestRow (fetch "5m")).map evaluate_conditions with
  | none => rw [h1, h2] at h; simp at h
  | some s2 =>
  cases h3 : (latestRow (fetch "15m")).map evaluate_conditions with
  | none => rw [h1, h2, h3] at h; simp at h
  | some s3 =>
  cases h4 : (latestRow (fetch "30m")).map evaluate_conditions with
  | none => rw [h1, h2, h3, h4] at h; simp at h
  | some s4 =>
  cases h5 : (latestRow (fetch "1h")).map evaluate_conditions with
  | none => rw [h1, h2, h3, h4, h5] at h; simp at h
  | some s5 =>
  rw [h1, h2, h3, h4, h5] at h
  simp at h
  obtain ⟨ho, hp⟩ := h
  subst ho
  subst hp
  clear h1 h2 h3 h4 h5
  revert s1 s2 s3 s4 s5
  decide

/-- Witness for C2: a constant one-candle fetch makes `analyze_symbol` succeed
with five NEUTRAL timeframes, and the per-timeframe keys are the configured
timeframes in order. -/
theorem analyze_symbol_spec_witness :
    ((([("1m", Signal.NEUTRAL), ("5m", .NEUTRAL), ("15m", .NEUTRAL),
        ("30m", .NEUTRAL), ("1h", .NEUTRAL)] : List (String × Signal)).map
       Prod.fst) = TIMEFRAMES) :=
  (analyze_symbol_spec.1 (fun _ => [oneCandle]) .NEUTRAL _ (by decide)).2.2.2

/-! ### EMA and MACD -/

theorem ewmGo_get?_succ (a : ℚ) :
    ∀ (xs : List ℚ) (m : ℚ) (t : ℕ) (xt et : ℚ),
      xs.get? (t + 1) = some xt → (ewmGo a m xs).get? t = some et →
      (ewmGo a m xs).get? (t + 1) = some (a * xt + (1 - a) * et) := by
  intro xs
  induction xs with
  | nil => intro m t xt et hx _; simp at hx
  | cons x rest ih =>
    intro m t xt et hx he
    cases t with
    | zero =>
      simp only [ewmGo, List.get?] at he hx ⊢
      cases rest with
      | nil => simp at hx
      | cons y r =>
        simp only [List.get?] at hx
        obtain rfl : y = xt := by exact Option.some_inj.mp hx
        obtain rfl : a * x + (1 - a) * m = et := Option.some_inj.mp he
        simp [ewmGo]
    | succ t' =>
      simp only [ewmGo, List.get?] at he hx ⊢
      exact ih (a * x + (1 - a) * m) t' xt et hx he

theorem ewm_get?_zero (a : ℚ) (xs : List ℚ) (x0 : ℚ) (h : xs.get? 0 = some x0) :
    (ewm a xs).get? 0 = some x0 := by
  cases xs with
  | nil => simp at h
  | cons x rest => simpa [ewm] using h

theorem ewm_get?_succ (a : ℚ) (xs : List ℚ) (t : ℕ) (xt et : ℚ)
    (hx : xs.get? (t + 1) = some xt) (he : (ewm a xs).get? t = some et) :
    (ewm a xs).get? (t + 1) = some (a * xt + (1 - a) * et) := by
  cases xs with
  | nil => simp at hx
  | cons x rest =>
    cases t with
    | zero =>
      simp only [ewm, List.get?] at he hx ⊢
      obtain rfl : x = et := Option.some_inj.mp he
      cases rest with
      | nil => simp at hx
      | cons y r =>
        simp only [List.get?] at hx
        obtain rfl : y = xt := Option.some_inj.mp hx
        simp [ewmGo]
    | succ t' =>
      simp only [ewm, List.get?] at he hx ⊢
      exact ewmGo_get?_succ a rest x t' xt et hx he

/-- **C7**: the EMA columns satisfy `ema[0] = close[0]` and
`ema[t] = α·x[t] + (1−α)·ema[t−1]` with `α = 2/(span+1)`; the MACD column is
the pointwise difference of the fast and slow EMA columns, and the MACD
signal column is the same EMA recurrence applied to the MACD column. -/
theorem ewm_macd_spec :
    (∀ (span : Nat) (xs : List ℚ) (x0 : ℚ), xs.get? 0 = some x0 →
        (ewm (alphaSpan span) xs).get? 0 = some x0) ∧
    (∀ (span : Nat) (xs : List ℚ) (t : ℕ) (xt et : ℚ),
        xs.get? (t + 1) = some xt → (ewm (alphaSpan span) xs).get? t = some et →
        (ewm (alphaSpan span) xs).get? (t + 1) =
          some (alphaSpan span * xt + (1 - alphaSpan span) * et)) ∧
    (∀ span : Nat, alphaSpan span = 2 / ((span : ℚ) + 1)) ∧
    (∀ (df : List Candle) (t : ℕ) (f s : ℚ),
        (ewm (alphaSpan MACD_FAST) (closes df)).get? t = some f →
        (ewm (alphaSpan MACD_SLOW) (closes df)).get? t = some s →
        (MACD_col df).get? t = some (f - s)) ∧
    (∀ df : List Candle, MACD_signal_col df = ewm (alphaSpan MACD_SIGNAL) (MACD_col df)) := by
  refine ⟨fun span xs x0 h => ewm_get?_zero _ xs x0 h,
          fun span xs t xt et hx he => ewm_get?_succ _ xs t xt et hx he,
          fun span => rfl, ?_, fun df => rfl⟩
  intro df t f s hf hs
  unfold MACD_col
  rw [List.get?_zipWith', hf, hs]
  rfl

/-- Witness for C7: the recurrence evaluated on the concrete series `[4, 8]`
with the fast EMA span. -/
theorem ewm_macd_spec_witness :
    (ewm (alphaSpan 7) [4, 8]).get? 1 =
      some (alphaSpan 7 * 8 + (1 - alphaSpan 7) * 4) :=
  ewm_macd_spec.2.1 7 [4, 8] 0 8 4 (by decide)
    (ewm_macd_spec.1 7 [4, 8] 4 (by decide))

/-! ### RSI -/

/-- **C5**: at any row where both Wilder averages are defined, RSI is 50 when
the down-average is 0 and `100 − 100/(1 + up/down)` otherwise; no unguarded
division happens (the guarded branch is total). -/
theorem rsi_guard_spec (df : List Candle) (t : ℕ) (u d : ℚ)
    (hu : (ma_up_col df).get? t = some (some u))
    (hd : (ma_down_col df).get? t = some (some d)) :
    (RSI_col df).get? t = some (if d = 0 then 50 else 100 - 100 / (1 + u / d)) := by
  unfold RSI_col rs_col
  rw [List.get?_map, List.get?_zipWith', hu, hd]
  by_cases h0 : d = 0 <;> simp [replace0, divO, h0]

/-- Witness for C5: on `rsiPair` the down-average at row 1 is 0 and RSI is
the guarded default 50. -/
theorem rsi_guard_spec_witness :
    (RSI_col rsiPair).get? 1 =
      some (if (0 : ℚ) = 0 then 50 else 100 - 100 / (1 + 1 / 0)) :=
  rsi_guard_spec rsiPair 1 1 0 (by decide) (by decide)

theorem ewmGoO_nonneg (a : ℚ) (ha0 : 0 ≤ a) (ha1 : a ≤ 1) :
    ∀ (xs : List (Option ℚ)) (m : ℚ), 0 ≤ m →
      (∀ x ∈ xs, ∀ v, x = some v → 0 ≤ v) →
      ∀ y ∈ ewmGoO a m xs, 0 ≤ y := by
  intro xs
  induction xs with
  | nil => intro m _ _ y hy; simp [ewmGoO] at hy
  | cons x rest ih =>
    intro m hm hxs y hy
    cases x with
    | none =>
      simp only [ewmGoO, List.mem_cons] at hy
      rcases hy with rfl | hy
      · exact hm
      · exact ih m hm (fun z hz => hxs z (List.mem_cons_of_mem _ hz)) y hy
    | some v =>
      have hv : 0 ≤ v := hxs (some v) (List.mem_cons_self _ _) v rfl
      have hm' : 0 ≤ a * v + (1 - a) * m :=
        add_nonneg (mul_nonneg ha0 hv) (mul_nonneg (by linarith) hm)
      simp only [ewmGoO, List.mem_cons] at hy
      rcases hy with rfl | hy
      · exact hm'
      · exact ih _ hm' (fun z hz => hxs z (List.mem_cons_of_mem _ hz)) y hy

theorem ewmO_nonneg (a : ℚ) (ha0 : 0 ≤ a) (ha1 : a ≤ 1) :
    ∀ xs : List (Option ℚ), (∀ x ∈ xs, ∀ v, x = some v → 0 ≤ v) →
      ∀ y ∈ ewmO a xs, ∀ v, y = some v → 0 ≤ v := by
  intro xs
  induction xs with
  | nil => intro _ y hy; simp [ewmO] at hy
  | cons x rest ih =>
    intro hxs y hy v hv
    cases x with
    | none =>
      simp only [ewmO, List.mem_cons] at hy
      rcases hy with rfl | hy
      · exact absurd hv (by simp)
      · exact ih (fun z hz => hxs z (List.mem_cons_of_mem _ hz)) y hy v hv
    | some w =>
      have hw : 0 ≤ w := hxs (some w) (List.mem_cons_self _ _) w rfl
      simp only [ewmO, List.mem_cons] at hy
      rcases hy with rfl | hy
      · cases hv; exact hw
      · obtain ⟨u, hu, huy⟩ := List.mem_map.mp hy
        have h1 : 0 ≤ u := ewmGoO_nonneg a ha0 ha1 rest w hw
          (fun z hz => hxs z (List.mem_cons_of_mem _ hz)) u hu
        have huv : u = v := Option.some_inj.mp (by rw [huy]; exact hv)
        exact huv ▸ h1

theorem up_col_nonneg (df : List Candle) :
    ∀ x ∈ up_col df, ∀ v, x = some v → 0 ≤ v := by
  intro x hx v hv
  obtain ⟨y, _, rfl⟩ := List.mem_map.mp hx
  cases y with
  | none => exact absurd hv (by simp [clipLower0])
  | some w =>
    simp only [clipLower0, Option.map_some'] at hv
    obtain rfl : max w 0 = v := Option.some_inj.mp hv
    exact le_max_right w 0

theorem down_col_nonneg (df : List Candle) :
    ∀ x ∈ down_col df, ∀ v, x = some v → 0 ≤ v := by
  intro x hx v hv
  obtain ⟨y, _, rfl⟩ := List.mem_map.mp hx
  cases y with
  | none => exact absurd hv (by simp [negClipUpper0])
  | some w =>
    simp only [negClipUpper0, Option.map_some'] at hv
    obtain rfl : -1 * min w 0 = v := Option.some_inj.mp hv
    have : min w 0 ≤ 0 := min_le_right w 0
    linarith

/-- The Wilder smoothing factor `1/RSI_WINDOW` lies in `[0, 1]`. -/
theorem alphaCom_rsi_mem : 0 ≤ alphaCom ((RSI_WINDOW : ℚ) - 1) ∧
    alphaCom ((RSI_WINDOW : ℚ) - 1) ≤ 1 := by
  constructor <;> norm_num [alphaCom, RSI_WINDOW]

/-- **C9**: every RSI value the engine produces lies in `[0, 100]`. -/
theorem rsi_range_spec (df : List Candle) (t : ℕ) (r : ℚ)
    (h : (RSI_col df).get? t = some r) : 0 ≤ r ∧ r ≤ 100 := by
  unfold RSI_col at h
  rw [List.get?_map] at h
  cases hrs : (rs_col df).get? t with
  | none => rw [hrs] at h; simp at h
  | some rsv =>
    rw [hrs] at h
    simp only [Option.map_some', Option.some_inj] at h
    cases rsv with
    | none =>
      subst h
      norm_num
    | some rs =>
      subst h
      have hrs0 : 0 ≤ rs := by
        unfold rs_col at hrs
        rw [List.get?_zipWith'] at hrs
        cases hu : (ma_up_col df).get? t with
        | none => rw [hu] at hrs; simp at hrs
        | some uo =>
          cases hd : (ma_down_col df).get? t with
          | none => rw [hu, hd] at hrs; simp at hrs
          | some dv =>
            rw [hu, hd] at hrs
            simp only [Option.map_some', Option.some_bind, Option.some_inj] at hrs
            cases uo with
            | none => simp [divO] at hrs
            | some u =>
              cases dv with
              | none => simp [divO, replace0] at hrs
              | some d =>
                by_cases h0 : d = 0
                · simp [divO, replace0, h0] at hrs
                · rw [show replace0 (some d) = some d by simp [replace0, h0]] at hrs
                  have hrs2 : u / d = rs := by simpa [divO] using hrs
                  have hu0 : 0 ≤ u :=
                    ewmO_nonneg _ alphaCom_rsi_mem.1 alphaCom_rsi_mem.2 _
                      (up_col_nonneg df) _ (List.get?_mem hu) u rfl
                  have hd0 : 0 ≤ d :=
                    ewmO_nonneg _ alphaCom_rsi_mem.1 alphaCom_rsi_mem.2 _
                      (down_col_nonneg df) _ (List.get?_mem hd) d rfl
                  exact hrs2 ▸ div_nonneg hu0 hd0
      have h1 : (0 : ℚ) < 1 + rs := by linarith
      have h2 : 100 / (1 + rs) ≤ 100 := div_le_self (by norm_num) (by linarith)
      have h3 : 0 < 100 / (1 + rs) := div_pos (by norm_num) h1
      constructor <;> linarith

/-- Witness for C9: the RSI of `rsiPair` at row 0 (the default 50) is within
the bounds. -/
theorem rsi_range_spec_witness : (0 : ℚ) ≤ 50 ∧ (50 : ℚ) ≤ 100 :=
  rsi_range_spec rsiPair 0 50 (by decide)

/-! ### List-level helper lemmas about the combinators -/

theorem length_ewmGo (a : ℚ) : ∀ (xs : List ℚ) (m : ℚ), (ewmGo a m xs).length = xs.length
  | [], _ => rfl
  | _ :: rest, m => by simp [ewmGo, length_ewmGo a rest]

theorem length_ewm (a : ℚ) (xs : List ℚ) : (ewm a xs).length = xs.length := by
  cases xs with
  | nil => rfl
  | cons x rest => simp [ewm, length_ewmGo]

theorem length_ewmGoO (a : ℚ) :
    ∀ (xs : List (Option ℚ)) (m : ℚ), (ewmGoO a m xs).length = xs.length
  | [], _ => rfl
  | none :: rest, m => by simp [ewmGoO, length_ewmGoO a rest]
  | some _ :: rest, m => by simp [ewmGoO, length_ewmGoO a rest]

theorem length_ewmO (a : ℚ) : ∀ xs : List (Option ℚ), (ewmO a xs).length = xs.length
  | [] => rfl
  | none :: rest => by simp [ewmO, length_ewmO a rest]
  | some _ :: rest => by simp [ewmO, length_ewmGoO]

theorem length_prevO {α : Type} (xs : List α) : (prevO xs).length = xs.length := by
  simp [prevO]

theorem length_bfill : ∀ xs : List (Option ℚ), (bfill xs).length = xs.length
  | [] => rfl
  | some _ :: rest => by simp [bfill, length_bfill rest]
  | none :: rest => by simp [bfill, length_bfill rest]

theorem length_fillna (d : ℚ) (xs : List (Option ℚ)) : (fillna d xs).length = xs.length := by
  simp [fillna]

theorem length_rollingMean (w : Nat) (xs : List ℚ) :
    (rollingMean w xs).length = xs.length := by simp [rollingMean]

theorem length_rollingSum (w : Nat) (xs : List ℚ) :
    (rollingSum w xs).length = xs.length := by simp [rollingSum]

theorem length_rollingStd (w : Nat) (xs : List ℚ) :
    (rollingStd w xs).length = xs.length := by simp [rollingStd]

theorem length_rollingMeanO (w : Nat) (xs : List (Option ℚ)) :
    (rollingMeanO w xs).length = xs.length := by simp [rollingMeanO]

theorem rollingMean_get? (w : Nat) (xs : List ℚ) (t : Nat) (ht : t < xs.length) :
    (rollingMean w xs).get? t =
      some (if w ≤ t + 1 then some ((windowAt w xs t).sum / w) else none) := by
  unfold rollingMean
  rw [List.get?_map, List.get?_range ht]
  rfl

theorem rollingSum_get? (w : Nat) (xs : List ℚ) (t : Nat) (ht : t < xs.length) :
    (rollingSum w xs).get? t =
      some (if w ≤ t + 1 then some (windowAt w xs t).sum else none) := by
  unfold rollingSum
  rw [List.get?_map, List.get?_range ht]
  rfl

theorem rollingStd_get? (w : Nat) (xs : List ℚ) (t : Nat) (ht : t < xs.length) :
    (rollingStd w xs).get? t =
      some (if w ≤ t + 1 then some (Rat.sqrt (sampleVar (windowAt w xs t))) else none) := by
  unfold rollingStd
  rw [List.get?_map, List.get?_range ht]
  rfl

theorem rollingMeanO_get? (w : Nat) (xs : List (Option ℚ)) (t : Nat) (ht : t < xs.length) :
    (rollingMeanO w xs).get? t =
      some (if w ≤ t + 1 then (sumO (windowAt w xs t)).map (· / (w : ℚ)) else none) := by
  unfold rollingMeanO
  rw [List.get?_map, List.get?_range ht]
  rfl

theorem prevO_get?_zero {α : Type} (xs : List α) (h0 : 0 < xs.length) :
    (prevO xs).get? 0 = some none := by
  unfold prevO
  rw [List.get?_map, List.get?_range h0]
  rfl

theorem prevO_get?_succ {α : Type} (xs : List α) (s : Nat) (ht : s + 1 < xs.length) :
    (prevO xs).get? (s + 1) = some (xs.get? s) := by
  unfold prevO
  rw [List.get?_map, List.get?_range ht]
  rfl

theorem bfill_get?_of_some :
    ∀ (xs : List (Option ℚ)) (i : Nat) (v : ℚ),
      xs.get? i = some (some v) → (bfill xs).get? i = some (some v)
  | [], i, v, h => by simp at h
  | some w :: rest, 0, v, h => by simpa [bfill] using h
  | some w :: rest, i + 1, v, h => by
      simpa [bfill] using bfill_get?_of_some rest i v (by simpa using h)
  | none :: rest, 0, v, h => by simp at h
  | none :: rest, i + 1, v, h => by
      simpa [bfill] using bfill_get?_of_some rest i v (by simpa using h)

theorem windowAt_subset {α : Type} (w : Nat) (xs : List α) (t : Nat) :
    ∀ y ∈ windowAt w xs t, y ∈ xs := fun _ hy =>
  List.mem_of_mem_take (List.mem_of_mem_drop hy)

theorem length_windowAt {α : Type} (w : Nat) (xs : List α) (t : Nat)
    (h1 : w ≤ t + 1) (h2 : t < xs.length) : (windowAt w xs t).length = w := by
  simp only [windowAt, List.length_drop, List.length_take]
  omega

theorem sum_all_eq (c : ℚ) : ∀ l : List ℚ, (∀ x ∈ l, x = c) → l.sum = l.length * c := by
  intro l
  induction l with
  | nil => simp
  | cons x rest ih =>
    intro h
    have hx : x = c := h x (List.mem_cons_self _ _)
    have hr := ih (fun y hy => h y (List.mem_cons_of_mem _ hy))
    simp only [List.sum_cons, List.length_cons, hx, hr]
    push_cast
    ring

theorem mem_zipWith {α β γ : Type} {f : α → β → γ} :
    ∀ {xs : List α} {ys : List β} {z : γ}, z ∈ List.zipWith f xs ys →
      ∃ x, x ∈ xs ∧ ∃ y, y ∈ ys ∧ z = f x y := by
  intro xs
  induction xs with
  | nil => intro ys z hz; simp at hz
  | cons x rest ih =>
    intro ys z hz
    cases ys with
    | nil => simp at hz
    | cons y rys =>
      simp only [List.zipWith_cons_cons, List.mem_cons] at hz
      rcases hz with rfl | hz
      · exact ⟨x, List.mem_cons_self _ _, y, List.mem_cons_self _ _, rfl⟩
      · obtain ⟨x', hx', y', hy', rfl⟩ := ih hz
        exact ⟨x', List.mem_cons_of_mem _ hx', y', List.mem_cons_of_mem _ hy', rfl⟩

theorem getLastD_eq_get? {α : Type} (l : List α) (d : α) :
    l.getLastD d = (l.get? (l.length - 1)).getD d := by
  rw [List.getLastD_eq_getLast?, List.getLast?_eq_get?]

theorem getLastD_all_eq {α : Type} (l : List α) (d c : α) (hne : l ≠ [])
    (hall : ∀ x ∈ l, x = c) : l.getLastD d = c := by
  rw [List.getLastD_eq_getLast?]
  cases hL : l.getLast? with
  | none =>
    have hiff := List.getLast?_isSome (l := l)
    rw [hL] at hiff
    simp at hiff
    exact absurd hiff hne
  | some y => exact hall y (List.mem_of_mem_getLast? hL)

theorem ewmGo_const (a c : ℚ) :
    ∀ xs : List ℚ, (∀ x ∈ xs, x = c) → ∀ y ∈ ewmGo a c xs, y = c := by
  intro xs
  induction xs with
  | nil => intro _ y hy; simp [ewmGo] at hy
  | cons x rest ih =>
    intro h y hy
    have hx : x = c := h x (List.mem_cons_self _ _)
    have hstep : a * x + (1 - a) * c = c := by rw [hx]; ring
    simp only [ewmGo, hstep, List.mem_cons] at hy
    rcases hy with rfl | hy
    · rfl
    · exact ih (fun z hz => h z (List.mem_cons_of_mem _ hz)) y hy

theorem ewm_const (a c : ℚ) (xs : List ℚ) (h : ∀ x ∈ xs, x = c) :
    ∀ y ∈ ewm a xs, y = c := by
  cases xs with
  | nil => intro y hy; simp [ewm] at hy
  | cons x rest =>
    intro y hy
    have hx : x = c := h x (List.mem_cons_self _ _)
    subst hx
    simp only [ewm, List.mem_cons] at hy
    rcases hy with rfl | hy
    · rfl
    · exact ewmGo_const a x rest (fun z hz => h z (List.mem_cons_of_mem _ hz)) y hy

theorem ewmGoO_zero (a : ℚ) :
    ∀ xs : List (Option ℚ), (∀ x ∈ xs, ∀ v, x = some v → v = 0) →
      ∀ y ∈ ewmGoO a 0 xs, y = 0 := by
  intro xs
  induction xs with
  | nil => intro _ y hy; simp [ewmGoO] at hy
  | cons x rest ih =>
    intro h y hy
    cases x with
    | none =>
      simp only [ewmGoO, List.mem_cons] at hy
      rcases hy with rfl | hy
      · rfl
      · exact ih (fun z hz => h z (List.mem_cons_of_mem _ hz)) y hy
    | some v =>
      have hv : v = 0 := h (some v) (List.mem_cons_self _ _) v rfl
      have hstep : a * v + (1 - a) * 0 = 0 := by rw [hv]; ring
      simp only [ewmGoO, hstep, List.mem_cons] at hy
      rcases hy with rfl | hy
      · rfl
      · exact ih (fun z hz => h z (List.mem_cons_of_mem _ hz)) y hy

theorem ewmO_zero (a : ℚ) :
    ∀ xs : List (Option ℚ), (∀ x ∈ xs, ∀ v, x = some v → v = 0) →
      ∀ y ∈ ewmO a xs, ∀ v, y = some v → v = 0 := by
  intro xs
  induction xs with
  | nil => intro _ y hy; simp [ewmO] at hy
  | cons x rest ih =>
    intro h y hy v hv
    cases x with
    | none =>
      simp only [ewmO, List.mem_cons] at hy
      rcases hy with rfl | hy
      · exact absurd hv (by simp)
      · exact ih (fun z hz => h z (List.mem_cons_of_mem _ hz)) y hy v hv
    | some w =>
      have hw : w = 0 := h (some w) (List.mem_cons_self _ _) w rfl
      subst hw
      simp only [ewmO, List.mem_cons] at hy
      rcases hy with rfl | hy
      · exact Option.some_inj.mp hv.symm |>.symm ▸ rfl
      · obtain ⟨u, hu, huy⟩ := List.mem_map.mp hy
        have h1 : u = 0 := ewmGoO_zero a rest
          (fun z hz => h z (List.mem_cons_of_mem _ hz)) u hu
        have h2 : u = v := Option.some_inj.mp (by rw [huy]; exact hv)
        rw [← h2, h1]

theorem prevO_mem {α : Type} (xs : List α) :
    ∀ y ∈ prevO xs, y = none ∨ ∃ v, v ∈ xs ∧ y = some v := by
  intro y hy
  unfold prevO at hy
  obtain ⟨t, _, rfl⟩ := List.mem_map.mp hy
  cases t with
  | zero => exact Or.inl rfl
  | succ s =>
    cases hg : xs.get? s with
    | none => exact Or.inl hg
    | some v => exact Or.inr ⟨v, List.get?_mem hg, hg⟩

theorem sampleVar_all_eq (c : ℚ) (l : List ℚ) (h : ∀ x ∈ l, x = c) (hne : l ≠ []) :
    sampleVar l = 0 := by
  unfold sampleVar
  have hm : l.sum / (l.length : ℚ) = c := by
    rw [sum_all_eq c l h]
    have hL : (l.length : ℚ) ≠ 0 :=
      Nat.cast_ne_zero.mpr (by simpa [List.length_eq_zero] using hne)
    field_simp
  have hall0 : ∀ y ∈ l.map (fun x => (x - l.sum / l.length) ^ 2), y = 0 := by
    intro y hy
    obtain ⟨x, hx, rfl⟩ := List.mem_map.mp hy
    rw [h x hx, hm]
    ring
  rw [sum_all_eq 0 _ hall0]
  simp

theorem length_closes (df : List Candle) : (closes df).length = df.length :=
  List.length_map _ _

theorem length_volumes (df : List Candle) : (volumes df).length = df.length :=
  List.length_map _ _

theorem length_MACD_col (df : List Candle) : (MACD_col df).length = df.length := by
  simp [MACD_col, List.length_zipWith, length_ewm, length_closes]

theorem length_RSI_col (df : List Candle) : (RSI_col df).length = df.length := by
  simp [RSI_col, rs_col, ma_up_col, ma_down_col, up_col, down_col, delta_col, diffQ,
    List.length_zipWith, length_ewmO, length_prevO, length_closes]

theorem length_bb_upper_col (df : List Candle) :
    (bb_upper_col df).length = df.length := by
  simp [bb_upper_col, List.length_zipWith, length_rollingMean, length_rollingStd,
    length_closes]

theorem length_bb_lower_col (df : List Candle) :
    (bb_lower_col df).length = df.length := by
  simp [bb_lower_col, List.length_zipWith, length_rollingMean, length_rollingStd,
    length_closes]

theorem length_vol_ma_col (df : List Candle) :
    (vol_ma_col df).length = df.length := by
  simp [vol_ma_col, length_bfill, length_rollingMean, length_volumes]

theorem length_ADX_col (df : List Candle) : (ADX_col df).length = df.length := by
  simp [ADX_col, fillna, length_rollingMeanO, DX_col, di_plus_col, di_minus_col,
    List.length_zipWith, dm_plus_s_col, dm_minus_s_col, TR_s_col, length_rollingSum,
    TR_col, dm_plus_col, dm_minus_col, length_prevO]

/-! ### The flat-price invariant -/

/-- **C4**: on any frame of length ≥ 21 (max window + 1) whose closes are all
the same `c > 0`, the last snapshot has `EMA_fast = EMA_slow = c`, `MACD = 0`,
`RSI = 50`, collapsed Bollinger bands `bb_upper = bb_lower = some c`, both
Bollinger breakout conditions false, and the resulting signal NEUTRAL. -/
theorem flat_price_spec (c : ℚ) (hc : 0 < c) (df : List Candle)
    (hcl : ∀ cd ∈ df, cd.close = c) (hlen : 21 ≤ df.length) :
    ∃ snap : Snapshot, latestRow df = some snap ∧
      snap.EMA_fast = c ∧ snap.EMA_slow = c ∧ snap.MACD = 0 ∧ snap.RSI = 50 ∧
      snap.bb_upper = some c ∧ snap.bb_lower = some c ∧
      ¬bb_buy snap ∧ ¬bb_sell snap ∧ evaluate_conditions snap = .NEUTRAL := by
  have hpos : 0 < df.length := by omega
  have hne : df ≠ [] := List.length_pos.mp hpos
  have hcloses : ∀ x ∈ closes df, x = c := by
    intro x hx
    obtain ⟨cd, hcd, rfl⟩ := List.mem_map.mp hx
    exact hcl cd hcd
  obtain ⟨cd, hcd⟩ : ∃ cd, df.getLast? = some cd := by
    cases hL : df.getLast? with
    | none =>
      have hiff := List.getLast?_isSome (l := df)
      rw [hL] at hiff
      simp at hiff
      exact absurd hiff hne
    | some y => exact ⟨y, rfl⟩
  have hcdc : cd.close = c := hcl cd (List.mem_of_mem_getLast? hcd)
  -- EMA columns are constant
  have hema : ∀ a : ℚ, (ewm a (closes df)).getLastD 0 = c := by
    intro a
    apply getLastD_all_eq
    · intro h
      have h2 := congrArg List.length h
      rw [length_ewm, length_closes] at h2
      simp only [List.length_nil] at h2
      omega
    · exact ewm_const a c _ hcloses
  -- MACD is constantly 0
  have hmacd : (MACD_col df).getLastD 0 = 0 := by
    apply getLastD_all_eq
    · intro h
      have h2 := congrArg List.length h
      rw [length_MACD_col] at h2
      simp only [List.length_nil] at h2
      omega
    · intro z hz
      unfold MACD_col at hz
      obtain ⟨x, hx, y, hy, rfl⟩ := mem_zipWith hz
      rw [ewm_const _ c _ hcloses x hx, ewm_const _ c _ hcloses y hy]
      ring
  -- RSI is constantly 50
  have hdelta : ∀ x ∈ delta_col df, ∀ v, x = some v → v = 0 := by
    intro x hx v hv
    unfold delta_col diffQ at hx
    obtain ⟨b, hb, y, hy, rfl⟩ := mem_zipWith hx
    rcases prevO_mem _ y hy with rfl | ⟨w, hw, rfl⟩
    · simp at hv
    · simp only [Option.map_some', Option.some_inj] at hv
      rw [hcloses b hb, hcloses w hw] at hv
      linarith [hv]
  have hdown : ∀ x ∈ down_col df, ∀ v, x = some v → v = 0 := by
    intro x hx v hv
    unfold down_col at hx
    obtain ⟨y, hy, rfl⟩ := List.mem_map.mp hx
    cases y with
    | none => exact absurd hv (by simp [negClipUpper0])
    | some w =>
      have hw : w = 0 := hdelta (some w) hy w rfl
      subst hw
      simp only [negClipUpper0, Option.map_some', Option.some_inj] at hv
      simpa using hv.symm
  have hma_down : ∀ y ∈ ma_down_col df, ∀ v, y = some v → v = 0 :=
    ewmO_zero _ _ hdown
  have hrs : ∀ z ∈ rs_col df, z = none := by
    intro z hz
    unfold rs_col at hz
    obtain ⟨u, hu, d, hd, rfl⟩ := mem_zipWith hz
    cases d with
    | none => cases u <;> simp [divO, replace0]
    | some dv =>
      have hdv : dv = 0 := hma_down _ hd dv rfl
      subst hdv
      cases u <;> simp [divO, replace0]
  have hrsi : (RSI_col df).getLastD 0 = 50 := by
    apply getLastD_all_eq
    · intro h
      have h2 := congrArg List.length h
      rw [length_RSI_col] at h2
      simp only [List.length_nil] at h2
      omega
    · intro y hy
      unfold RSI_col at hy
      obtain ⟨z, hz, rfl⟩ := List.mem_map.mp hy
      rw [hrs z hz]
  -- Bollinger bands collapse
  have hidx : df.length - 1 < (closes df).length := by rw [length_closes]; omega
  have hwall : ∀ x ∈ windowAt BB_WINDOW (closes df) (df.length - 1), x = c :=
    fun x hx => hcloses x (windowAt_subset _ _ _ x hx)
  have hwbound : BB_WINDOW ≤ (df.length - 1) + 1 := by
    unfold BB_WINDOW
    omega
  have hwlen : (windowAt BB_WINDOW (closes df) (df.length - 1)).length = BB_WINDOW :=
    length_windowAt _ _ _ hwbound hidx
  have hwne : windowAt BB_WINDOW (closes df) (df.length - 1) ≠ [] := by
    intro h
    have h2 := congrArg List.length h
    rw [hwlen] at h2
    simp [BB_WINDOW] at h2
  have hmean : (rollingMean BB_WINDOW (closes df)).get? (df.length - 1) = some (some c) := by
    rw [rollingMean_get? _ _ _ hidx, if_pos hwbound, sum_all_eq c _ hwall, hwlen]
    have h20 : ((BB_WINDOW : ℕ) : ℚ) ≠ 0 := by norm_num [BB_WINDOW]
    rw [mul_div_cancel_left₀ _ h20]
  have hstd : (rollingStd BB_WINDOW (closes df)).get? (df.length - 1) = some (some 0) := by
    rw [rollingStd_get? _ _ _ hidx, if_pos hwbound, sampleVar_all_eq c _ hwall hwne]
    rfl
  have hbbu : (bb_upper_col df).get? (df.length - 1) = some (some c) := by
    unfold bb_upper_col
    rw [List.get?_zipWith', hmean, hstd]
    simp [addO]
  have hbbl : (bb_lower_col df).get? (df.length - 1) = some (some c) := by
    unfold bb_lower_col
    rw [List.get?_zipWith', hmean, hstd]
    simp [subO]
  have hbbuL : (bb_upper_col df).getLastD none = some c := by
    rw [getLastD_eq_get?, length_bb_upper_col, hbbu]
    rfl
  have hbblL : (bb_lower_col df).getLastD none = some c := by
    rw [getLastD_eq_get?, length_bb_lower_col, hbbl]
    rfl
  have hnbb : ¬gtO cd.close ((bb_upper_col df).getLastD none) := by
    rw [hbbuL, hcdc]
    simp [gtO]
  have hnbs : ¬ltO cd.close ((bb_lower_col df).getLastD none) := by
    rw [hbblL, hcdc]
    simp [ltO]
  unfold latestRow
  rw [hcd]
  refine ⟨_, rfl, hema _, hema _, hmacd, hrsi, hbbuL, hbblL, hnbb, hnbs, ?_⟩
  unfold evaluate_conditions
  rw [if_neg (fun hb => hnbb hb.2.2.2.2.2), if_neg (fun hs => hnbs hs.2.2.2.2.2)]

/-- Witness for C4: the spec's 21 flat candles at close 100. -/
theorem flat_price_spec_witness :
    ∃ snap : Snapshot, latestRow flat21 = some snap ∧
      snap.EMA_fast = 100 ∧ snap.EMA_slow = 100 ∧ snap.MACD = 0 ∧ snap.RSI = 50 ∧
      snap.bb_upper = some 100 ∧ snap.bb_lower = some 100 ∧
      ¬bb_buy snap ∧ ¬bb_sell snap ∧ evaluate_conditions snap = .NEUTRAL :=
  flat_price_spec 100 (by norm_num) flat21 (by decide) (by decide)

/-! ### Definedness at the minimum window length -/

theorem exists_getLast? {α : Type} (l : List α) (hne : l ≠ []) :
    ∃ y, l.getLast? = some y := by
  cases hL : l.getLast? with
  | none =>
    have hiff := List.getLast?_isSome (l := l)
    rw [hL] at hiff
    simp at hiff
    exact absurd hiff hne
  | some y => exact ⟨y, rfl⟩

/-- **C6**: on a frame of exactly 21 rows (`max window + 1`, the max window
being the Bollinger/volume window 20), the last snapshot exists and every
optional field of it is defined — the always-filled fields (EMA, MACD, RSI via
`fillna(50)`, ADX via `fillna(0)`) are total rationals by construction, and
the remaining three (`vol_ma`, `bb_upper`, `bb_lower`) are `some` — so the
engine, a total function, yields a fully-defined consumed row. -/
theorem min_length_defined_spec (df : List Candle) (hlen : df.length = 21) :
    ∃ snap : Snapshot, latestRow df = some snap ∧
      snap.vol_ma.isSome ∧ snap.bb_upper.isSome ∧ snap.bb_lower.isSome := by
  have hne : df ≠ [] := by intro h; rw [h] at hlen; simp at hlen
  obtain ⟨cd, hcd⟩ := exists_getLast? df hne
  -- volume moving average
  have hvolIdx : (20 : ℕ) < (volumes df).length := by rw [length_volumes, hlen]; omega
  obtain ⟨v, hv⟩ : ∃ v, (rollingMean VOL_WINDOW (volumes df)).get? 20 = some (some v) := by
    rw [rollingMean_get? _ _ _ hvolIdx, if_pos (by unfold VOL_WINDOW; omega)]
    exact ⟨_, rfl⟩
  have hvolL : (vol_ma_col df).getLastD none = some v := by
    rw [getLastD_eq_get?, length_vol_ma_col, hlen]
    unfold vol_ma_col
    rw [bfill_get?_of_some _ _ _ hv]
    rfl
  -- Bollinger bands
  have hclIdx : (20 : ℕ) < (closes df).length := by rw [length_closes, hlen]; omega
  have hbw : BB_WINDOW ≤ 20 + 1 := by unfold BB_WINDOW; omega
  obtain ⟨b, hb⟩ : ∃ b, (bb_upper_col df).get? 20 = some (some b) := by
    unfold bb_upper_col
    rw [List.get?_zipWith', rollingMean_get? _ _ _ hclIdx, if_pos hbw,
      rollingStd_get? _ _ _ hclIdx, if_pos hbw]
    exact ⟨_, rfl⟩
  obtain ⟨b', hb'⟩ : ∃ b', (bb_lower_col df).get? 20 = some (some b') := by
    unfold bb_lower_col
    rw [List.get?_zipWith', rollingMean_get? _ _ _ hclIdx, if_pos hbw,
      rollingStd_get? _ _ _ hclIdx, if_pos hbw]
    exact ⟨_, rfl⟩
  have hbbuL : (bb_upper_col df).getLastD none = some b := by
    rw [getLastD_eq_get?, length_bb_upper_col, hlen, hb]
    rfl
  have hbblL : (bb_lower_col df).getLastD none = some b' := by
    rw [getLastD_eq_get?, length_bb_lower_col, hlen, hb']
    rfl
  unfold latestRow
  rw [hcd]
  refine ⟨_, rfl, ?_, ?_, ?_⟩
  · show ((vol_ma_col df).getLastD none).isSome
    rw [hvolL]
    rfl
  · show ((bb_upper_col df).getLastD none).isSome
    rw [hbbuL]
    rfl
  · show ((bb_lower_col df).getLastD none).isSome
    rw [hbblL]
    rfl

/-- Witness for C6: the 21-row flat frame. -/
theorem min_length_defined_spec_witness :
    ∃ snap : Snapshot, latestRow flat21 = some snap ∧
      snap.vol_ma.isSome ∧ snap.bb_upper.isSome ∧ snap.bb_lower.isSome :=
  min_length_defined_spec flat21 (by decide)

/-! ### ADX degeneracy -/

@[simp] theorem divO_none_right (x : Option ℚ) : divO x none = none := by
  cases x <;> rfl

theorem sumO_eq_none_of_mem : ∀ l : List (Option ℚ), none ∈ l → sumO l = none := by
  intro l
  induction l with
  | nil => intro h; simp at h
  | cons x rest ih =>
    intro h
    rcases List.mem_cons.mp h with rfl | h
    · rfl
    · show (match x, sumO rest with
        | some v, some s => some (v + s)
        | _, _ => none) = none
      rw [ih h]
      cases x <;> rfl

theorem length_DX_col (df : List Candle) : (DX_col df).length = df.length := by
  simp [DX_col, di_plus_col, di_minus_col, List.length_zipWith, dm_plus_s_col,
    dm_minus_s_col, TR_s_col, length_rollingSum, TR_col, dm_plus_col, dm_minus_col,
    length_prevO]

/-- **C8** (amended): when `(+DI) + (−DI) = 0` at a row, the DX value at that
row is undefined (NaN), not 0; ADX is the `fillna(0)` of the strict rolling
mean of DX, so ADX is 0 at any row whose trailing `ADX_WINDOW`-window contains
an undefined DX (an undefined row never contributes 0 to a defined mean), and
equals that rolling mean only when every DX in the window is defined. -/
theorem adx_degeneracy_spec :
    (∀ (df : List Candle) (t : ℕ) (dp dm : Option ℚ),
        (di_plus_col df).get? t = some dp → (di_minus_col df).get? t = some dm →
        addO dp dm = some 0 → (DX_col df).get? t = some none) ∧
    (∀ (df : List Candle) (t : ℕ), t < df.length → ADX_WINDOW ≤ t + 1 →
        none ∈ windowAt ADX_WINDOW (DX_col df) t → (ADX_col df).get? t = some 0) ∧
    (∀ (df : List Candle) (t : ℕ) (m : ℚ),
        (rollingMeanO ADX_WINDOW (DX_col df)).get? t = some (some m) →
        (ADX_col df).get? t = some m) := by
  refine ⟨?_, ?_, ?_⟩
  · intro df t dp dm h1 h2 h3
    unfold DX_col
    rw [List.get?_zipWith', h1, h2]
    simp only [Option.map_some', Option.some_bind, Option.some_inj]
    rw [h3]
    simp [replace0]
  · intro df t ht hw hmem
    have hlt : t < (DX_col df).length := by rw [length_DX_col]; exact ht
    unfold ADX_col fillna
    rw [List.get?_map, rollingMeanO_get? _ _ _ hlt, if_pos hw,
      sumO_eq_none_of_mem _ hmem]
    rfl
  · intro df t m h
    unfold ADX_col fillna
    rw [List.get?_map, h]
    rfl

/-- Counterexample for C8 as stated: in `adxDF` the DI denominator at row 14
is 0 (both DI are 0); the trailing 14-row window at row 27 holds that
undefined DX together with 13 defined DX values of 100; the claim's reading
(that row contributing 0 to the mean) predicts ADX = (0 + 13·100)/14 ≠ 0, but
the code yields ADX = 0. -/
theorem adx_degeneracy_counterexample :
    ((di_plus_col adxDF).getD 14 none = some 0 ∧
     (di_minus_col adxDF).getD 14 none = some 0) ∧
    windowAt ADX_WINDOW (DX_col adxDF) 27 = none :: List.replicate 13 (some 100) ∧
    (ADX_col adxDF).get? 27 = some 0 ∧
    ((0 + 13 * 100 : ℚ) / 14 ≠ 0) := by decide

/-- Witness for C8: the amended theorem applied to `adxDF` at the degenerate
row 14 and at row 27, whose window contains the undefined DX. -/
theorem adx_degeneracy_spec_witness :
    (DX_col adxDF).get? 14 = some none ∧ (ADX_col adxDF).get? 27 = some 0 :=
  ⟨adx_degeneracy_spec.1 adxDF 14 (some 0) (some 0) (by decide) (by decide) (by decide),
   adx_degeneracy_spec.2.1 adxDF 27 (by decide) (by decide) (by decide)⟩

/-! ### Causality: prefix-determination of the derived columns

Each lemma says that the first `n` entries of a derived column are determined
by the first `n` candles. -/

theorem take_congr_map {α β : Type} (f : α → β) {xs ys : List α} {n : ℕ}
    (h : xs.take n = ys.take n) : (xs.map f).take n = (ys.map f).take n := by
  rw [← List.map_take, ← List.map_take, h]

theorem take_congr_zipWith {α β γ : Type} (f : α → β → γ)
    {as as' : List α} {bs bs' : List β} {n : ℕ}
    (h1 : as.take n = as'.take n) (h2 : bs.take n = bs'.take n) :
    (List.zipWith f as bs).take n = (List.zipWith f as' bs').take n := by
  rw [List.take_zipWith, List.take_zipWith, h1, h2]

theorem ewmGo_take_congr (a : ℚ) :
    ∀ (n : ℕ) (xs ys : List ℚ) (m : ℚ), xs.take n = ys.take n →
      (ewmGo a m xs).take n = (ewmGo a m ys).take n := by
  intro n
  induction n with
  | zero => intro xs ys m _; simp
  | succ n ih =>
    intro xs ys m h
    cases xs with
    | nil =>
      cases ys with
      | nil => rfl
      | cons y ys' => simp at h
    | cons x xs' =>
      cases ys with
      | nil => simp at h
      | cons y ys' =>
        simp only [List.take_succ_cons, List.cons.injEq] at h
        obtain ⟨rfl, h2⟩ := h
        simp only [ewmGo, List.take_succ_cons, List.cons.injEq, true_and]
        exact ih xs' ys' _ h2

theorem ewm_take_congr (a : ℚ) (n : ℕ) (xs ys : List ℚ)
    (h : xs.take n = ys.take n) : (ewm a xs).take n = (ewm a ys).take n := by
  cases n with
  | zero => simp
  | succ n =>
    cases xs with
    | nil =>
      cases ys with
      | nil => rfl
      | cons y ys' => simp at h
    | cons x xs' =>
      cases ys with
      | nil => simp at h
      | cons y ys' =>
        simp only [List.take_succ_cons, List.cons.injEq] at h
        obtain ⟨rfl, h2⟩ := h
        simp only [ewm, List.take_succ_cons, List.cons.injEq, true_and]
        exact ewmGo_take_congr a n xs' ys' x h2

theorem ewmGoO_take_congr (a : ℚ) :
    ∀ (n : ℕ) (xs ys : List (Option ℚ)) (m : ℚ), xs.take n = ys.take n →
      (ewmGoO a m xs).take n = (ewmGoO a m ys).take n := by
  intro n
  induction n with
  | zero => intro xs ys m _; simp
  | succ n ih =>
    intro xs ys m h
    cases xs with
    | nil =>
      cases ys with
      | nil => rfl
      | cons y ys' => simp at h
    | cons x xs' =>
      cases ys with
      | nil => simp at h
      | cons y ys' =>
        simp only [List.take_succ_cons, List.cons.injEq] at h
        obtain ⟨rfl, h2⟩ := h
        cases x with
        | none =>
          simp only [ewmGoO, List.take_succ_cons, List.cons.injEq, true_and]
          exact ih xs' ys' _ h2
        | some v =>
          simp only [ewmGoO, List.take_succ_cons, List.cons.injEq, true_and]
          exact ih xs' ys' _ h2

theorem ewmO_take_congr (a : ℚ) :
    ∀ (n : ℕ) (xs ys : List (Option ℚ)), xs.take n = ys.take n →
      (ewmO a xs).take n = (ewmO a ys).take n := by
  intro n
  induction n with
  | zero => intro xs ys _; simp
  | succ n ih =>
    intro xs ys h
    cases xs with
    | nil =>
      cases ys with
      | nil => rfl
      | cons y ys' => simp at h
    | cons x xs' =>
      cases ys with
      | nil => simp at h
      | cons y ys' =>
        simp only [List.take_succ_cons, List.cons.injEq] at h
        obtain ⟨rfl, h2⟩ := h
        cases x with
        | none =>
          simp only [ewmO, List.take_succ_cons, List.cons.injEq, true_and]
          exact ih xs' ys' h2
        | some v =>
          simp only [ewmO, List.take_succ_cons, List.cons.injEq, true_and]
          rw [← List.map_take, ← List.map_take, ewmGoO_take_congr a n xs' ys' v h2]

theorem windowAt_take_congr {α : Type} (w : ℕ) (xs ys : List α) (n t : ℕ)
    (h : xs.take n = ys.take n) (ht : t < n) :
    windowAt w xs t = windowAt w ys t := by
  unfold windowAt
  have hx : xs.take (t + 1) = ys.take (t + 1) := by
    calc xs.take (t + 1) = (xs.take n).take (t + 1) := by
          rw [List.take_take, min_eq_left (by omega)]
      _ = (ys.take n).take (t + 1) := by rw [h]
      _ = ys.take (t + 1) := by rw [List.take_take, min_eq_left (by omega)]
  rw [hx]

theorem prevO_take_congr {α : Type} (xs ys : List α) (n : ℕ)
    (h : xs.take n = ys.take n) : (prevO xs).take n = (prevO ys).take n := by
  have hlen : min n xs.length = min n ys.length := by
    simpa using congrArg List.length h
  apply List.ext
  intro i
  by_cases hin : i < n
  · rw [List.get?_take hin, List.get?_take hin]
    by_cases hix : i < xs.length
    · have hiy : i < ys.length := by omega
      cases i with
      | zero => rw [prevO_get?_zero _ (by omega), prevO_get?_zero _ (by omega)]
      | succ s =>
        rw [prevO_get?_succ _ _ hix, prevO_get?_succ _ _ hiy]
        have hs : xs.get? s = ys.get? s := by
          calc xs.get? s = (xs.take n).get? s := (List.get?_take (by omega)).symm
            _ = (ys.take n).get? s := by rw [h]
            _ = ys.get? s := List.get?_take (by omega)
        rw [hs]
    · have hiy : ¬i < ys.length := by omega
      rw [List.get?_eq_none.mpr (by rw [length_prevO]; omega),
        List.get?_eq_none.mpr (by rw [length_prevO]; omega)]
  · rw [List.get?_eq_none.mpr (by simp [List.length_take, length_prevO]; omega),
      List.get?_eq_none.mpr (by simp [List.length_take, length_prevO]; omega)]

theorem rolling_take_congr {α β : Type} (w : ℕ) (G : List α → ℕ → β)
    (xs ys : List α) (n : ℕ) (h : xs.take n = ys.take n) :
    ((List.range xs.length).map (fun t => G (windowAt w xs t) t)).take n =
      ((List.range ys.length).map (fun t => G (windowAt w ys t) t)).take n := by
  have hlen : min n xs.length = min n ys.length := by
    simpa using congrArg List.length h
  apply List.ext
  intro i
  by_cases hin : i < n
  · rw [List.get?_take hin, List.get?_take hin]
    by_cases hix : i < xs.length
    · have hiy : i < ys.length := by omega
      rw [List.get?_map, List.get?_map, List.get?_range hix, List.get?_range hiy]
      simp only [Option.map_some']
      rw [windowAt_take_congr w xs ys n i h hin]
    · have hiy : ¬i < ys.length := by omega
      rw [List.get?_eq_none.mpr (by simp; omega), List.get?_eq_none.mpr (by simp; omega)]
  · rw [List.get?_eq_none.mpr (by simp [List.length_take]; omega),
      List.get?_eq_none.mpr (by simp [List.length_take]; omega)]

/-- **C3** (amended): the Indicator Engine is lookahead-free in every derived
column except `vol_ma`: if two frames agree on rows `0..t`, then EMA_fast,
EMA_slow, MACD, MACD_signal, RSI, ADX, bb_upper and bb_lower agree on all rows
`0..t`, and `vol_ma` agrees on rows `s` with `VOL_WINDOW - 1 ≤ s ≤ t`; at
earlier rows `vol_ma` is produced by `fillna(method="bfill")`, which copies
the first complete window's mean backward and may therefore read candles
after row `t`. -/
theorem no_lookahead_spec (df1 df2 : List Candle) (t : ℕ)
    (h : df1.take (t + 1) = df2.take (t + 1)) :
    (EMA_fast_col df1).take (t + 1) = (EMA_fast_col df2).take (t + 1) ∧
    (EMA_slow_col df1).take (t + 1) = (EMA_slow_col df2).take (t + 1) ∧
    (MACD_col df1).take (t + 1) = (MACD_col df2).take (t + 1) ∧
    (MACD_signal_col df1).take (t + 1) = (MACD_signal_col df2).take (t + 1) ∧
    (RSI_col df1).take (t + 1) = (RSI_col df2).take (t + 1) ∧
    (ADX_col df1).take (t + 1) = (ADX_col df2).take (t + 1) ∧
    (bb_upper_col df1).take (t + 1) = (bb_upper_col df2).take (t + 1) ∧
    (bb_lower_col df1).take (t + 1) = (bb_lower_col df2).take (t + 1) ∧
    (∀ s, VOL_WINDOW - 1 ≤ s → s ≤ t →
      (vol_ma_col df1).get? s = (vol_ma_col df2).get? s) := by
  have hcl : (closes df1).take (t + 1) = (closes df2).take (t + 1) :=
    take_congr_map Candle.close h
  have hvol : (volumes df1).take (t + 1) = (volumes df2).take (t + 1) :=
    take_congr_map Candle.volume h
  have hprev : (prevO df1).take (t + 1) = (prevO df2).take (t + 1) :=
    prevO_take_congr _ _ _ h
  have hclprev : (prevO (closes df1)).take (t + 1) = (prevO (closes df2)).take (t + 1) :=
    prevO_take_congr _ _ _ hcl
  have hlenmin : min (t + 1) df1.length = min (t + 1) df2.length := by
    simpa using congrArg List.length h
  -- RSI chain
  have hdelta : (delta_col df1).take (t + 1) = (delta_col df2).take (t + 1) :=
    take_congr_zipWith _ hcl hclprev
  have hmaup : (ma_up_col df1).take (t + 1) = (ma_up_col df2).take (t + 1) :=
    ewmO_take_congr _ _ _ _ (take_congr_map clipLower0 hdelta)
  have hmadown : (ma_down_col df1).take (t + 1) = (ma_down_col df2).take (t + 1) :=
    ewmO_take_congr _ _ _ _ (take_congr_map negClipUpper0 hdelta)
  -- ADX chain
  have hTR : (TR_col df1).take (t + 1) = (TR_col df2).take (t + 1) :=
    take_congr_zipWith TR_row h hprev
  have hdmp : (dm_plus_col df1).take (t + 1) = (dm_plus_col df2).take (t + 1) :=
    take_congr_zipWith dm_plus_row h hprev
  have hdmm : (dm_minus_col df1).take (t + 1) = (dm_minus_col df2).take (t + 1) :=
    take_congr_zipWith dm_minus_row h hprev
  have hTRs : (TR_s_col df1).take (t + 1) = (TR_s_col df2).take (t + 1) :=
    rolling_take_congr ADX_WINDOW
      (fun win u => if ADX_WINDOW ≤ u + 1 then some win.sum else none) _ _ _ hTR
  have hdmps : (dm_plus_s_col df1).take (t + 1) = (dm_plus_s_col df2).take (t + 1) :=
    rolling_take_congr ADX_WINDOW
      (fun win u => if ADX_WINDOW ≤ u + 1 then some win.sum else none) _ _ _ hdmp
  have hdmms : (dm_minus_s_col df1).take (t + 1) = (dm_minus_s_col df2).take (t + 1) :=
    rolling_take_congr ADX_WINDOW
      (fun win u => if ADX_WINDOW ≤ u + 1 then some win.sum else none) _ _ _ hdmm
  have hdip : (di_plus_col df1).take (t + 1) = (di_plus_col df2).take (t + 1) :=
    take_congr_zipWith _ hdmps hTRs
  have hdim : (di_minus_col df1).take (t + 1) = (di_minus_col df2).take (t + 1) :=
    take_congr_zipWith _ hdmms hTRs
  have hDX : (DX_col df1).take (t + 1) = (DX_col df2).take (t + 1) :=
    take_congr_zipWith _ hdip hdim
  have hADXroll : (rollingMeanO ADX_WINDOW (DX_col df1)).take (t + 1) =
      (rollingMeanO ADX_WINDOW (DX_col df2)).take (t + 1) :=
    rolling_take_congr ADX_WINDOW
      (fun win u => if ADX_WINDOW ≤ u + 1 then (sumO win).map (· / (ADX_WINDOW : ℚ)) else none)
      _ _ _ hDX
  -- Bollinger chain
  have hbbm : (rollingMean BB_WINDOW (closes df1)).take (t + 1) =
      (rollingMean BB_WINDOW (closes df2)).take (t + 1) :=
    rolling_take_congr BB_WINDOW
      (fun win u => if BB_WINDOW ≤ u + 1 then some (win.sum / (BB_WINDOW : ℚ)) else none)
      _ _ _ hcl
  have hbbs : (rollingStd BB_WINDOW (closes df1)).take (t + 1) =
      (rollingStd BB_WINDOW (closes df2)).take (t + 1) :=
    rolling_take_congr BB_WINDOW
      (fun win u => if BB_WINDOW ≤ u + 1 then some (Rat.sqrt (sampleVar win)) else none)
      _ _ _ hcl
  refine ⟨ewm_take_congr _ _ _ _ hcl, ewm_take_congr _ _ _ _ hcl,
    take_congr_zipWith _ (ewm_take_congr _ _ _ _ hcl) (ewm_take_congr _ _ _ _ hcl),
    ewm_take_congr _ _ _ _
      (take_congr_zipWith _ (ewm_take_congr _ _ _ _ hcl) (ewm_take_congr _ _ _ _ hcl)),
    take_congr_map _ (take_congr_zipWith _ hmaup hmadown),
    take_congr_map _ hADXroll,
    take_congr_zipWith _ hbbm hbbs,
    take_congr_zipWith _ hbbm hbbs, ?_⟩
  intro s hs1 hs2
  by_cases hsl : s < df1.length
  · have hsl2 : s < df2.length := by omega
    have hw : VOL_WINDOW ≤ s + 1 := by
      unfold VOL_WINDOW at hs1 ⊢
      omega
    have hwin : windowAt VOL_WINDOW (volumes df1) s = windowAt VOL_WINDOW (volumes df2) s :=
      windowAt_take_congr _ _ _ (t + 1) s hvol (by omega)
    have hv1 : (rollingMean VOL_WINDOW (volumes df1)).get? s =
        some (some ((windowAt VOL_WINDOW (volumes df1) s).sum / (VOL_WINDOW : ℚ))) := by
      rw [rollingMean_get? _ _ _ (by rw [length_volumes]; omega), if_pos hw]
    have hv2 : (rollingMean VOL_WINDOW (volumes df2)).get? s =
        some (some ((windowAt VOL_WINDOW (volumes df2) s).sum / (VOL_WINDOW : ℚ))) := by
      rw [rollingMean_get? _ _ _ (by rw [length_volumes]; omega), if_pos hw]
    unfold vol_ma_col
    rw [bfill_get?_of_some _ _ _ hv1, bfill_get?_of_some _ _ _ hv2, hwin]
  · have hsl2 : ¬s < df2.length := by omega
    rw [List.get?_eq_none.mpr (by rw [length_vol_ma_col]; omega),
      List.get?_eq_none.mpr (by rw [length_vol_ma_col]; omega)]

/-- Counterexample for C3 as stated: two frames that agree on row 0; the
claim as stated requires every derived value at row 0 to coincide, but
`vol_ma` at row 0 is backward-filled from the first full window and differs
(1 versus 39/20). -/
theorem no_lookahead_counterexample :
    (List.replicate 20 volA).take 1 = (volA :: List.replicate 19 volB).take 1 ∧
    (vol_ma_col (List.replicate 20 volA)).get? 0 = some (some 1) ∧
    (vol_ma_col (volA :: List.replicate 19 volB)).get? 0 = some (some (39 / 20)) ∧
    ((some (some (1 : ℚ)) : Option (Option ℚ)) ≠ some (some (39 / 20))) := by
  decide

/-- Witness for C3: the amended theorem applied to the two frames of the
counterexample at `t = 0` (where they agree). -/
theorem no_lookahead_spec_witness :
    (EMA_fast_col (List.replicate 20 volA)).take 1 =
      (EMA_fast_col (volA :: List.replicate 19 volB)).take 1 :=
  (no_lookahead_spec (List.replicate 20 volA) (volA :: List.replicate 19 volB) 0
    (by decide)).1

end ScalpBot
